import Mathlib

/-!
Verification development for the STL volume/area calculator
(`volume_calculator.py`).  Vertex coordinates are modelled as exact
rationals (the idealised value carried by the Python floats), file
contents as lists of bytes (`Fin 256`), and ASCII lines as lists of
characters.  Each definition is a direct shallow embedding of the
corresponding Python function; definitions whose doc comment says
"spec-side" instead transcribe the natural-language specification and
are used only to compare the code against the spec's words.
-/

namespace STL

/-- A vertex: `(x, y, z)` in millimetres, as in the Python lists of 3 floats. -/
abbrev Point : Type := ℚ × ℚ × ℚ

/-- A facet `(p1, p2, p3)`, as returned by both triangle readers. -/
abbrev Triangle : Type := Point × Point × Point

def px (p : Point) : ℚ := p.1
def py (p : Point) : ℚ := p.2.1
def pz (p : Point) : ℚ := p.2.2

/-- The three vertices of a triangle, in the order the Python loops visit them. -/
def triVerts (t : Triangle) : List Point := [t.1, t.2.1, t.2.2]

/-- All vertices of all triangles (`for tri in self.triangles: for v in tri`). -/
def vertsOf (ts : List Triangle) : List Point := ts.flatMap triVerts

/-! ## Bounding box (`_calculate_bounding_box`) -/

/-- `if v < m: m = v` — one running-minimum update. -/
def updMin (m v : ℚ) : ℚ := if v < m then v else m

/-- `if v > m: m = v` — one running-maximum update. -/
def updMax (m v : ℚ) : ℚ := if v > m then v else m

/-- The six running accumulators of `_calculate_bounding_box`. -/
structure BBoxState where
  min_x : ℚ
  max_x : ℚ
  min_y : ℚ
  max_y : ℚ
  min_z : ℚ
  max_z : ℚ

/-- One iteration of the inner `for v in tri` loop. -/
def bboxStep (s : BBoxState) (v : Point) : BBoxState :=
  ⟨updMin s.min_x (px v), updMax s.max_x (px v),
   updMin s.min_y (py v), updMax s.max_y (py v),
   updMin s.min_z (pz v), updMax s.max_z (pz v)⟩

/-- The `{width, depth, height}` dictionary (centimetres). -/
structure BoundingBox where
  width : ℚ
  depth : ℚ
  height : ℚ
deriving DecidableEq

/-- `_calculate_bounding_box`: returns `(self.bounding_box_cm, self._bbox_min)`.
Empty mesh: all-zero box and origin.  Otherwise the accumulators are seeded
with the first vertex of the first triangle and folded over every vertex of
every triangle; dimensions are `(max - min) / 10` (mm → cm). -/
def calc_bounding_box (ts : List Triangle) : BoundingBox × Point :=
  match ts with
  | [] => (⟨0, 0, 0⟩, (0, 0, 0))
  | t :: _ =>
    let fv := t.1
    let s := (vertsOf ts).foldl bboxStep ⟨px fv, px fv, py fv, py fv, pz fv, pz fv⟩
    (⟨(s.max_x - s.min_x) / 10, (s.max_y - s.min_y) / 10, (s.max_z - s.min_z) / 10⟩,
     (s.min_x, s.min_y, s.min_z))

/-! ## Volume (`_signed_volume_of_triangle`, `_translated_triangles`,
`calculate_volume`) -/

/-- `_signed_volume_of_triangle`, term for term. -/
def signed_volume_of_triangle (p1 p2 p3 : Point) : ℚ :=
  let v321 := px p3 * py p2 * pz p1
  let v231 := px p2 * py p3 * pz p1
  let v312 := px p3 * py p1 * pz p2
  let v132 := px p1 * py p3 * pz p2
  let v213 := px p2 * py p1 * pz p3
  let v123 := px p1 * py p2 * pz p3
  (1 / 6) * (-v321 + v231 + v312 - v132 - v213 + v123)

/-- One triangle yielded by `_translated_triangles`: every vertex shifted by
`-(ox, oy, oz)` where `o` is the bounding-box minimum corner. -/
def translated_tri (o : Point) (t : Triangle) : Triangle :=
  ((px t.1 - px o, py t.1 - py o, pz t.1 - pz o),
   (px t.2.1 - px o, py t.2.1 - py o, pz t.2.1 - pz o),
   (px t.2.2 - px o, py t.2.2 - py o, pz t.2.2 - pz o))

/-- The raw signed sum accumulated by `calculate_volume` (in mm³): the fold of
`total += _signed_volume_of_triangle(...)` over `_translated_triangles()`,
with the translation origin `self._bbox_min` as computed at load time. -/
def rawSignedTotal (ts : List Triangle) : ℚ :=
  let o := (calc_bounding_box ts).2
  ts.foldl
    (fun total t =>
      total + signed_volume_of_triangle (translated_tri o t).1
        (translated_tri o t).2.1 (translated_tri o t).2.2) 0

/-- `calculate_volume`: the returned value `abs(total) / 1000` (mm³ → cm³). -/
def calculate_volume (ts : List Triangle) : ℚ := |rawSignedTotal ts| / 1000

/-- Whether `calculate_volume` prints the reversed-orientation warning:
`if total < 0`. -/
def orientation_warned (ts : List Triangle) : Bool := decide (rawSignedTotal ts < 0)

/-! ## Surface area (`calculate_surface_area`) -/

/-- The body of the `calculate_surface_area` loop for one triangle:
`0.5 * sqrt(cx*cx + cy*cy + cz*cz)` where `c = a × b` with `a = p2 - p1`,
`b = p3 - p1`; `x ** 0.5` is the real square root. -/
noncomputable def tri_area_term (t : Triangle) : ℝ :=
  let ax := (px t.2.1 : ℝ) - (px t.1 : ℝ)
  let ay := (py t.2.1 : ℝ) - (py t.1 : ℝ)
  let az := (pz t.2.1 : ℝ) - (pz t.1 : ℝ)
  let bx := (px t.2.2 : ℝ) - (px t.1 : ℝ)
  let by' := (py t.2.2 : ℝ) - (py t.1 : ℝ)
  let bz := (pz t.2.2 : ℝ) - (pz t.1 : ℝ)
  let cx := ay * bz - az * by'
  let cy := az * bx - ax * bz
  let cz := ax * by' - ay * bx
  0.5 * Real.sqrt (cx * cx + cy * cy + cz * cz)

/-- `calculate_surface_area`: accumulate the per-triangle terms over
`self.triangles`, then divide by 100 (mm² → cm²). -/
noncomputable def calculate_surface_area (ts : List Triangle) : ℝ :=
  (ts.foldl (fun area t => area + tri_area_term t) 0) / 100

/-! ## Binary files (`is_binary`, `read_triangle_binary`, `loadSTL` binary
branch).  A file is a list of bytes. -/

abbrev Byte : Type := Fin 256

/-- `(f.drop pos).take len`: the bytes a sequential `self.f.read(len)` returns
when the cursor is at `pos` (possibly fewer than `len` near end of file). -/
def slice (f : List Byte) (pos len : Nat) : List Byte := (f.drop pos).take len

/-- `struct.unpack('<I', ...)` on exactly 4 bytes; other lengths never reach
the unpack in the Python code paths that use this. -/
def u32le (l : List Byte) : Nat :=
  match l with
  | [b0, b1, b2, b3] => b0.val + 256 * b1.val + 65536 * b2.val + 16777216 * b3.val
  | _ => 0

/-- Reinterpret an unsigned 32-bit value as the two's-complement signed value,
as `struct.unpack("@i", ...)` does on a (little-endian) host. -/
def toSigned32 (n : Nat) : Int :=
  if n < 2 ^ 31 then (n : Int) else (n : Int) - 2 ^ 32

/-- IEEE-754 binary32 decoding of 4 little-endian bytes, valued in ℚ.
Infinities and NaNs (exponent 255) have no rational value; they are mapped
to 0 here — no claim in this development depends on such payloads. -/
def decodeF32 (l : List Byte) : ℚ :=
  let u := u32le l
  let s : ℚ := if u / 2 ^ 31 = 1 then -1 else 1
  let e : Nat := u / 2 ^ 23 % 2 ^ 8
  let m : Nat := u % 2 ^ 23
  if e = 0 then s * (m : ℚ) / 2 ^ 23 * ((2 : ℚ) ^ 126)⁻¹
  else if e = 255 then 0
  else s * (1 + (m : ℚ) / 2 ^ 23) * (2 : ℚ) ^ ((e : ℤ) - 127)

/-- One `<3f` vertex unpack at byte position `pos`. -/
def decodePoint (f : List Byte) (pos : Nat) : Point :=
  (decodeF32 (slice f pos 4), decodeF32 (slice f (pos + 4) 4),
   decodeF32 (slice f (pos + 8) 4))

/-- `read_triangle_binary` on the 50-byte record starting at `pos`: the
12-byte normal and the trailing 2-byte attribute count are discarded. -/
def read_triangle_binary (f : List Byte) (pos : Nat) : Triangle :=
  (decodePoint f (pos + 12), decodePoint f (pos + 24), decodePoint f (pos + 36))

/-- The binary reading loop: `n` records from position `pos`.  `struct.unpack`
raises `struct.error` as soon as `self.f.read` returns fewer bytes than one
of the unpacks needs, i.e. as soon as fewer than 50 bytes remain. -/
def readTriangles (f : List Byte) : Nat → Nat → Except String (List Triangle)
  | _, 0 => .ok []
  | pos, n + 1 =>
    if pos + 50 ≤ f.length then
      match readTriangles f (pos + 50) n with
      | .ok ts => .ok (read_triangle_binary f pos :: ts)
      | .error e => .error e
    else .error "unpack requires a buffer"

/-- The count `struct.unpack("@i", self.f.read(4))[0]` read after `seek(80)`:
native byte order (little-endian host) and *signed* native int. -/
def readCountNative (f : List Byte) : Int := toSigned32 (u32le (slice f 80 4))

/-- The binary branch of `loadSTL`: on success returns
`(self.triangle_count, self.triangles)`.  `range(count)` of a non-positive
count runs zero iterations (`Int.toNat` of a negative is 0); any
`struct.error` escapes to the `except` clause, which aborts the program. -/
def loadSTL_binary (f : List Byte) : Except String (Int × List Triangle) :=
  if 84 ≤ f.length then
    let c := readCountNative f
    match readTriangles f 84 c.toNat with
    | .ok ts => .ok (c, ts)
    | .error e => .error e
  else .error "unpack requires a buffer"

/-- Python `str.isspace` on the characters that single bytes can decode to:
ASCII whitespace plus the file/group/record/unit separators. -/
def isWSByte (b : Byte) : Bool :=
  b.val = 9 ∨ b.val = 10 ∨ b.val = 11 ∨ b.val = 12 ∨ b.val = 13 ∨
    b.val = 28 ∨ b.val = 29 ∨ b.val = 30 ∨ b.val = 31 ∨ b.val = 32

/-- `header.lstrip().startswith('solid')` at the byte level ('s','o','l','i','d'
are ASCII, and non-ASCII bytes decode (errors='replace') to non-space
characters distinct from them). -/
def startsWithSolid (l : List Byte) : Bool :=
  match l.dropWhile isWSByte with
  | a :: b :: c :: d :: e :: _ =>
    a.val = 115 ∧ b.val = 111 ∧ c.val = 108 ∧ d.val = 105 ∧ e.val = 100
  | _ => false

/-- `is_binary`: header not starting with `solid` ⇒ binary; otherwise read the
4-byte little-endian count and compare the file size with `80 + 4 + 50*count`;
fewer than 4 bytes after the header ⇒ ASCII. -/
def is_binary (f : List Byte) : Bool :=
  if ¬ startsWithSolid (f.take 80) then true
  else
    let raw := slice f 80 4
    if raw.length < 4 then false
    else decide (f.length = 80 + 4 + u32le raw * 50)

/-! ## ASCII files (`_parse_vertices`, `read_ascii_triangle`, `loadSTL` text
branch).  A line is a list of characters. -/

abbrev Line : Type := List Char

/-- Numeric value of a digit character. -/
def digToNat (c : Char) : Nat := c.toNat - 48

/-- Value of a digit string read most-significant first. -/
def digitsVal (l : List Char) : Nat := l.foldl (fun a c => 10 * a + digToNat c) 0

/-- The mantissa alternative `(\d+\.?\d*|\.\d+)` of the vertex-number regex,
tried greedily at the head of `l`.  On success returns the digits' value,
the number of fractional digits, and the unconsumed rest. -/
def matchMantissa (l : List Char) : Option (Nat × Nat × List Char) :=
  let sp := l.span Char.isDigit
  if sp.1 ≠ [] then
    match sp.2 with
    | '.' :: r2 =>
      let sp2 := r2.span Char.isDigit
      some (digitsVal (sp.1 ++ sp2.1), sp2.1.length, sp2.2)
    | _ => some (digitsVal sp.1, 0, sp.2)
  else
    match l with
    | '.' :: r2 =>
      let sp2 := r2.span Char.isDigit
      if sp2.1 = [] then none else some (digitsVal sp2.1, sp2.1.length, sp2.2)
    | _ => none

/-- The optional exponent group `([eE][-+]?\d+)?`.  If the group cannot be
completed the regex backtracks and matches nothing, leaving `l` unconsumed. -/
def matchExp (l : List Char) : ℤ × List Char :=
  match l with
  | c :: r =>
    if c = 'e' ∨ c = 'E' then
      match r with
      | s :: r2 =>
        if s = '+' then
          let sp := r2.span Char.isDigit
          if sp.1 = [] then (0, l) else ((digitsVal sp.1 : ℤ), sp.2)
        else if s = '-' then
          let sp := r2.span Char.isDigit
          if sp.1 = [] then (0, l) else (-(digitsVal sp.1 : ℤ), sp.2)
        else
          let sp := (s :: r2).span Char.isDigit
          if sp.1 = [] then (0, l) else ((digitsVal sp.1 : ℤ), sp.2)
      | [] => (0, l)
    else (0, l)
  | [] => (0, l)

/-- One attempt of the regex `[-+]?(\d+\.?\d*|\.\d+)([eE][-+]?\d+)?` anchored
at the head of `l`, yielding the matched number (as the exact rational the
decimal literal denotes) and the rest of the line. -/
def matchNumberAt (l : List Char) : Option (ℚ × List Char) :=
  let sgn : ℚ × List Char :=
    match l with
    | '+' :: r => (1, r)
    | '-' :: r => (-1, r)
    | _ => (1, l)
  match matchMantissa sgn.2 with
  | none => none
  | some (mant, sc, l2) =>
    let ex := matchExp l2
    some (sgn.1 * ((mant : ℚ) / 10 ^ sc) * (10 : ℚ) ^ ex.1, ex.2)

/-- `re.findall` of the number regex: try a match at every position, restart
after each match, advance one character after a failure.  The fuel (initially
more than the line length) only serves termination; every successful match
consumes at least one character. -/
def scanAux : Nat → List Char → List ℚ
  | 0, _ => []
  | _ + 1, [] => []
  | fuel + 1, c :: r =>
    match matchNumberAt (c :: r) with
    | some (q, rest) => q :: scanAux fuel rest
    | none => scanAux fuel r

/-- All numeric tokens of a line, left to right. -/
def scanNumbers (l : List Char) : List ℚ := scanAux (l.length + 1) l

/-- `_parse_vertices`: the first three numeric tokens of the line. -/
def parse_vertices (l : Line) : List ℚ := (scanNumbers l).take 3

/-- `lines[i].strip().lower().startswith('facet')`. -/
def isFacetLine (l : Line) : Bool :=
  match (l.dropWhile Char.isWhitespace).map Char.toLower with
  | 'f' :: 'a' :: 'c' :: 'e' :: 't' :: _ => true
  | _ => false

/-- `read_ascii_triangle`: parse the vertex lines at `index+2 .. index+4`;
an out-of-range index (IndexError) or fewer than 3 numeric tokens on any of
the three lines yields `None`. -/
def read_ascii_triangle (lines : List Line) (index : Nat) : Option Triangle :=
  match lines.get? (index + 2), lines.get? (index + 3), lines.get? (index + 4) with
  | some l1, some l2, some l3 =>
    match parse_vertices l1, parse_vertices l2, parse_vertices l3 with
    | [x1, y1, z1], [x2, y2, z2], [x3, y3, z3] =>
      some ((x1, y1, z1), (x2, y2, z2), (x3, y3, z3))
    | _, _, _ => none
  | _, _, _ => none

/-- The `while i < len(lines)` scanning loop of the text branch of `loadSTL`:
a line starting with `facet` consumes 7 lines (whether or not the facet
parsed), any other line one line.  The loop index strictly increases every
iteration, so the loop performs at most `len(lines)` iterations; the first
(fuel) argument makes that termination argument explicit and never runs out
when it starts at least at `lines.length - i` (see `scanSTL_fuel_eq`). -/
def scanSTL (lines : List Line) : Nat → Nat → List Triangle
  | 0, _ => []
  | fuel + 1, i =>
    if h : i < lines.length then
      if isFacetLine (lines.get ⟨i, h⟩) then
        match read_ascii_triangle lines i with
        | some t => t :: scanSTL lines fuel (i + 7)
        | none => scanSTL lines fuel (i + 7)
      else scanSTL lines fuel (i + 1)
    else []

/-- The text branch of `loadSTL`: `self.triangles` and
`self.triangle_count = len(self.triangles)`. -/
def loadSTL_text (lines : List Line) : List Triangle :=
  scanSTL lines (lines.length + 1) 0

/-- Any fuel of at least `lines.length - i` computes the same scan: the fuel
in `scanSTL` is only a termination bound, not part of the semantics. -/
theorem scanSTL_fuel_eq (lines : List Line) :
    ∀ f1 f2 i, lines.length ≤ i + f1 → lines.length ≤ i + f2 →
      scanSTL lines f1 i = scanSTL lines f2 i := by
  intro f1
  induction f1 with
  | zero =>
    intro f2 i h1 _
    cases f2 with
    | zero => rfl
    | succ f2 =>
      simp only [scanSTL]
      have : ¬ i < lines.length := by omega
      simp [this]
  | succ f1 ih =>
    intro f2 i h1 h2
    cases f2 with
    | zero =>
      simp only [scanSTL]
      have : ¬ i < lines.length := by omega
      simp [this]
    | succ f2 =>
      simp only [scanSTL]
      by_cases h : i < lines.length
      · simp only [h, dite_true]
        by_cases hf : isFacetLine (lines.get ⟨i, h⟩)
        · simp only [hf, if_true]
          cases read_ascii_triangle lines i with
          | some t => rw [ih f2 (i + 7) (by omega) (by omega)]
          | none => rw [ih f2 (i + 7) (by omega) (by omega)]
        · simp only [hf, if_false]
          exact ih f2 (i + 1) (by omega) (by omega)
      · simp [h]

/-! ## Watertightness (`_check_watertight`) -/

/-- Python's `round` to the nearest integer, ties to even (banker's
rounding), on the exact rational value. -/
def bankersRound (q : ℚ) : ℤ :=
  let n := ⌊q⌋
  let r := q - n
  if r < 1 / 2 then n
  else if r = 1 / 2 then (if Even n then n else n + 1)
  else n + 1

/-- `round(c, 6)`: round to 6 decimal places. -/
def round6 (q : ℚ) : ℚ := (bankersRound (q * 1000000) : ℚ) / 1000000

/-- `tuple(round(c, 6) for c in p)`. -/
def roundPoint (p : Point) : Point := (round6 (px p), round6 (py p), round6 (pz p))

/-- Python's lexicographic `<=` on 3-tuples. -/
def pointLe (a b : Point) : Bool :=
  px a < px b ∨ (px a = px b ∧ (py a < py b ∨ (py a = py b ∧ pz a ≤ pz b)))

/-- An edge key `(min(a, b), max(a, b))` — the unordered pair of endpoints. -/
def edgeKey (a b : Point) : Point × Point := if pointLe a b then (a, b) else (b, a)

/-- The three edge keys one triangle contributes, from its rounded vertices,
in the order `((v1,v2), (v2,v3), (v3,v1))`. -/
def triEdges (t : Triangle) : List (Point × Point) :=
  let v1 := roundPoint t.1
  let v2 := roundPoint t.2.1
  let v3 := roundPoint t.2.2
  [edgeKey v1 v2, edgeKey v2 v3, edgeKey v3 v1]

/-- The whole stream of edge keys the double loop of `_check_watertight`
feeds into `edge_count`. -/
def edgeMultiset (ts : List Triangle) : List (Point × Point) := ts.flatMap triEdges

/-- `edge_count[key] += 1` on a `defaultdict(int)`, modelled as an
association list: bump an existing entry or append a fresh one. -/
def bumpEdge (m : List ((Point × Point) × Nat)) (k : Point × Point) :
    List ((Point × Point) × Nat) :=
  match m with
  | [] => [(k, 1)]
  | (k0, n) :: rest => if k0 = k then (k0, n + 1) :: rest else (k0, n) :: bumpEdge rest k

/-- The finished `edge_count` dictionary. -/
def edge_count (ts : List Triangle) : List ((Point × Point) × Nat) :=
  (edgeMultiset ts).foldl bumpEdge []

/-- `_check_watertight`: `all(count == 2 for count in edge_count.values())`. -/
def check_watertight (ts : List Triangle) : Bool :=
  (edge_count ts).all (fun kv => kv.2 = 2)

/-- Occurrence count of an element in a list (the multiset multiplicity). -/
def cntK {α : Type} [DecidableEq α] (e : α) : List α → Nat
  | [] => 0
  | x :: r => (if x = e then 1 else 0) + cntK e r

/-- Value stored for key `k` in an association list, 0 when absent. -/
def lookupE (m : List ((Point × Point) × Nat)) (k : Point × Point) : Nat :=
  match m with
  | [] => 0
  | (k0, n) :: rest => if k0 = k then n else lookupE rest k

/-- Spec-side: the number of triangles of the mesh in which the undirected
edge `e` occurs (a triangle counts once however often it repeats `e`). -/
def trisContaining (e : Point × Point) (ts : List Triangle) : Nat :=
  (ts.filter (fun t => decide (e ∈ triEdges t))).length

/-! ## Spec-side minimum/maximum of a coordinate list -/

/-- Spec-side: the minimum of a list of coordinates (0 for the empty mesh). -/
def minOf (l : List ℚ) : ℚ :=
  match l with
  | [] => 0
  | a :: r => r.foldl min a

/-- Spec-side: the maximum of a list of coordinates (0 for the empty mesh). -/
def maxOf (l : List ℚ) : ℚ :=
  match l with
  | [] => 0
  | a :: r => r.foldl max a

/-- All x-coordinates of all vertices of the mesh, in file order. -/
def xsOf (ts : List Triangle) : List ℚ := (vertsOf ts).map px

/-- All y-coordinates of all vertices of the mesh, in file order. -/
def ysOf (ts : List Triangle) : List ℚ := (vertsOf ts).map py

/-- All z-coordinates of all vertices of the mesh, in file order. -/
def zsOf (ts : List Triangle) : List ℚ := (vertsOf ts).map pz

/-! ## General fold lemmas -/

theorem foldl_add_eq {M α : Type} [AddCommMonoid M] (f : α → M) :
    ∀ (l : List α) (s : M), l.foldl (fun acc t => acc + f t) s = s + (l.map f).sum
  | [], s => by simp
  | x :: l, s => by
    simp only [List.foldl_cons, List.map_cons, List.sum_cons]
    rw [foldl_add_eq f l (s + f x), add_assoc]

theorem foldl_min_le_init : ∀ (l : List ℚ) (a : ℚ), l.foldl min a ≤ a
  | [], a => le_refl a
  | x :: l, a => le_trans (foldl_min_le_init l (min a x)) (min_le_left a x)

theorem foldl_min_le_mem : ∀ (l : List ℚ) (a b : ℚ), b ∈ l → l.foldl min a ≤ b
  | [], _, b, hb => absurd hb (List.not_mem_nil b)
  | x :: l, a, b, hb => by
    rcases List.mem_cons.mp hb with h | h
    · subst h
      exact le_trans (foldl_min_le_init l (min a b)) (min_le_right a b)
    · exact foldl_min_le_mem l (min a x) b h

theorem foldl_min_mem : ∀ (l : List ℚ) (a : ℚ), l.foldl min a = a ∨ l.foldl min a ∈ l
  | [], a => Or.inl rfl
  | x :: l, a => by
    rcases foldl_min_mem l (min a x) with h | h
    · rw [List.foldl_cons, h]
      rcases min_choice a x with h2 | h2
      · exact Or.inl h2
      · exact Or.inr (by rw [h2]; exact List.mem_cons_self x l)
    · exact Or.inr (List.mem_cons_of_mem x h)

theorem foldl_max_le_init : ∀ (l : List ℚ) (a : ℚ), a ≤ l.foldl max a
  | [], a => le_refl a
  | x :: l, a => le_trans (le_max_left a x) (foldl_max_le_init l (max a x))

theorem foldl_max_le_mem : ∀ (l : List ℚ) (a b : ℚ), b ∈ l → b ≤ l.foldl max a
  | [], _, b, hb => absurd hb (List.not_mem_nil b)
  | x :: l, a, b, hb => by
    rcases List.mem_cons.mp hb with h | h
    · subst h
      exact le_trans (le_max_right a b) (foldl_max_le_init l (max a b))
    · exact foldl_max_le_mem l (max a x) b h

theorem foldl_max_mem : ∀ (l : List ℚ) (a : ℚ), l.foldl max a = a ∨ l.foldl max a ∈ l
  | [], a => Or.inl rfl
  | x :: l, a => by
    rcases foldl_max_mem l (max a x) with h | h
    · rw [List.foldl_cons, h]
      rcases max_choice a x with h2 | h2
      · exact Or.inl h2
      · exact Or.inr (by rw [h2]; exact List.mem_cons_self x l)
    · exact Or.inr (List.mem_cons_of_mem x h)

theorem minOf_mem {l : List ℚ} (h : l ≠ []) : minOf l ∈ l := by
  cases l with
  | nil => exact absurd rfl h
  | cons a r =>
    show List.foldl min a r ∈ a :: r
    rcases foldl_min_mem r a with h2 | h2
    · rw [h2]; exact List.mem_cons_self a r
    · exact List.mem_cons_of_mem a h2

theorem minOf_le {l : List ℚ} {b : ℚ} (hb : b ∈ l) : minOf l ≤ b := by
  cases l with
  | nil => exact absurd hb (List.not_mem_nil b)
  | cons a r =>
    rcases List.mem_cons.mp hb with h | h
    · exact h ▸ foldl_min_le_init r a
    · exact foldl_min_le_mem r a b h

theorem maxOf_mem {l : List ℚ} (h : l ≠ []) : maxOf l ∈ l := by
  cases l with
  | nil => exact absurd rfl h
  | cons a r =>
    show List.foldl max a r ∈ a :: r
    rcases foldl_max_mem r a with h2 | h2
    · rw [h2]; exact List.mem_cons_self a r
    · exact List.mem_cons_of_mem a h2

theorem maxOf_le {l : List ℚ} {b : ℚ} (hb : b ∈ l) : b ≤ maxOf l := by
  cases l with
  | nil => exact absurd hb (List.not_mem_nil b)
  | cons a r =>
    rcases List.mem_cons.mp hb with h | h
    · exact h ▸ foldl_max_le_init r a
    · exact foldl_max_le_mem r a b h

theorem minOf_perm {l1 l2 : List ℚ} (p : l1.Perm l2) : minOf l1 = minOf l2 := by
  cases l1 with
  | nil => rw [p.nil_eq.symm]
  | cons a r =>
    have h1 : (a :: r) ≠ [] := List.cons_ne_nil a r
    have h2 : l2 ≠ [] := by
      intro h
      subst h
      exact absurd p.eq_nil (by simp)
    exact le_antisymm
      (minOf_le (p.mem_iff.mpr (minOf_mem h2)))
      (minOf_le (p.mem_iff.mp (minOf_mem h1)))

theorem maxOf_perm {l1 l2 : List ℚ} (p : l1.Perm l2) : maxOf l1 = maxOf l2 := by
  cases l1 with
  | nil => rw [p.nil_eq.symm]
  | cons a r =>
    have h1 : (a :: r) ≠ [] := List.cons_ne_nil a r
    have h2 : l2 ≠ [] := by
      intro h
      subst h
      exact absurd p.eq_nil (by simp)
    exact le_antisymm
      (maxOf_le (p.mem_iff.mp (maxOf_mem h1)))
      (maxOf_le (p.mem_iff.mpr (maxOf_mem h2)))

/-! ## Bounding-box characterisation -/

theorem updMin_eq (m v : ℚ) : updMin m v = min m v := by
  unfold updMin
  split_ifs with h
  · exact (min_eq_right h.le).symm
  · exact (min_eq_left (le_of_not_lt h)).symm

theorem updMax_eq (m v : ℚ) : updMax m v = max m v := by
  unfold updMax
  split_ifs with h
  · exact (max_eq_right h.le).symm
  · exact (max_eq_left (le_of_not_lt h)).symm

theorem bboxFold_proj : ∀ (l : List Point) (s : BBoxState),
    (l.foldl bboxStep s).min_x = (l.map px).foldl min s.min_x ∧
    (l.foldl bboxStep s).max_x = (l.map px).foldl max s.max_x ∧
    (l.foldl bboxStep s).min_y = (l.map py).foldl min s.min_y ∧
    (l.foldl bboxStep s).max_y = (l.map py).foldl max s.max_y ∧
    (l.foldl bboxStep s).min_z = (l.map pz).foldl min s.min_z ∧
    (l.foldl bboxStep s).max_z = (l.map pz).foldl max s.max_z
  | [], s => by simp
  | v :: l, s => by
    simp only [List.foldl_cons, List.map_cons]
    have h := bboxFold_proj l (bboxStep s v)
    simpa [bboxStep, updMin_eq, updMax_eq] using h

theorem vertsOf_cons (t : Triangle) (rest : List Triangle) :
    vertsOf (t :: rest) = t.1 :: t.2.1 :: t.2.2 :: vertsOf rest := by
  simp [vertsOf, triVerts]

/-- `_calculate_bounding_box` computes exactly the per-axis minima and maxima
over all vertices: dimensions `(max - min)/10` per axis, origin the minimum
corner (and all zeros for an empty mesh). -/
theorem calc_bounding_box_eq (ts : List Triangle) :
    calc_bounding_box ts =
      (⟨(maxOf (xsOf ts) - minOf (xsOf ts)) / 10,
        (maxOf (ysOf ts) - minOf (ysOf ts)) / 10,
        (maxOf (zsOf ts) - minOf (zsOf ts)) / 10⟩,
       (minOf (xsOf ts), minOf (ysOf ts), minOf (zsOf ts))) := by
  cases ts with
  | nil => simp [calc_bounding_box, xsOf, ysOf, zsOf, vertsOf, minOf, maxOf]
  | cons t rest =>
    have h := bboxFold_proj (vertsOf (t :: rest))
      ⟨px t.1, px t.1, py t.1, py t.1, pz t.1, pz t.1⟩
    obtain ⟨h1, h2, h3, h4, h5, h6⟩ := h
    have hx : xsOf (t :: rest) = px t.1 :: px t.2.1 :: px t.2.2 :: (vertsOf rest).map px := by
      simp [xsOf, vertsOf_cons]
    have hy : ysOf (t :: rest) = py t.1 :: py t.2.1 :: py t.2.2 :: (vertsOf rest).map py := by
      simp [ysOf, vertsOf_cons]
    have hz : zsOf (t :: rest) = pz t.1 :: pz t.2.1 :: pz t.2.2 :: (vertsOf rest).map pz := by
      simp [zsOf, vertsOf_cons]
    simp only [calc_bounding_box]
    rw [Prod.ext_iff]
    constructor
    · show (⟨_, _, _⟩ : BoundingBox) = _
      rw [BoundingBox.mk.injEq]
      refine ⟨?_, ?_, ?_⟩
      · rw [h1, h2, hx]
        simp only [xsOf, vertsOf_cons, List.map_cons] at *
        simp [minOf, maxOf, min_self, max_self]
      · rw [h3, h4, hy]
        simp only [ysOf, vertsOf_cons, List.map_cons] at *
        simp [minOf, maxOf, min_self, max_self]
      · rw [h5, h6, hz]
        simp only [zsOf, vertsOf_cons, List.map_cons] at *
        simp [minOf, maxOf, min_self, max_self]
    · show (_, _, _) = (_, _, _)
      rw [h1, h3, h5, hx, hy, hz]
      simp only [xsOf, ysOf, zsOf, vertsOf_cons, List.map_cons] at *
      simp [minOf, maxOf, min_self]

/-! ## The `edge_count` dictionary counts multiset multiplicities -/

theorem cntK_cons {α : Type} [DecidableEq α] (e x : α) (l : List α) :
    cntK e (x :: l) = (if x = e then 1 else 0) + cntK e l := rfl

theorem cntK_ne_zero_of_mem {α : Type} [DecidableEq α] {e : α} :
    ∀ {l : List α}, e ∈ l → cntK e l ≠ 0 := by
  intro l
  induction l with
  | nil => intro h; exact absurd h (List.not_mem_nil e)
  | cons x r ih =>
    intro h
    rcases List.mem_cons.mp h with h2 | h2
    · subst h2
      simp [cntK_cons]
    · simp only [cntK_cons]
      intro hc
      exact ih h2 (by omega)

theorem lookupE_bump (m : List ((Point × Point) × Nat)) (e k : Point × Point) :
    lookupE (bumpEdge m e) k = lookupE m k + (if e = k then 1 else 0) := by
  induction m with
  | nil =>
    by_cases h : e = k <;> simp [bumpEdge, lookupE, h]
  | cons kv rest ih =>
    obtain ⟨k0, n⟩ := kv
    by_cases h0 : k0 = e
    · subst h0
      by_cases hk : k0 = k
      · subst hk
        simp [bumpEdge, lookupE]
      · simp [bumpEdge, lookupE, hk]
    · by_cases hk : k0 = k
      · subst hk
        simp [bumpEdge, lookupE, h0, Ne.symm (fun h => h0 h.symm)]
        intro h
        exact absurd h.symm h0
      · simp [bumpEdge, lookupE, h0, hk, ih]

theorem lookupE_foldl (l : List (Point × Point)) :
    ∀ (m : List ((Point × Point) × Nat)) (k : Point × Point),
      lookupE (l.foldl bumpEdge m) k = lookupE m k + cntK k l := by
  induction l with
  | nil => intro m k; simp [cntK]
  | cons e l ih =>
    intro m k
    simp only [List.foldl_cons, cntK_cons]
    rw [ih (bumpEdge m e) k, lookupE_bump]
    omega

theorem lookupE_mem : ∀ (m : List ((Point × Point) × Nat)) (k : Point × Point),
    lookupE m k ≠ 0 → (k, lookupE m k) ∈ m := by
  intro m
  induction m with
  | nil => intro k h; exact absurd rfl h
  | cons kv rest ih =>
    obtain ⟨k0, n⟩ := kv
    intro k h
    by_cases hk : k0 = k
    · subst hk
      simp only [lookupE, if_pos rfl] at h ⊢
      exact List.mem_cons_self _ _
    · simp only [lookupE, if_neg hk] at h ⊢
      exact List.mem_cons_of_mem _ (ih k h)

theorem mem_bump_key : ∀ (m : List ((Point × Point) × Nat)) (e : Point × Point)
    (kv : (Point × Point) × Nat), kv ∈ bumpEdge m e → kv.1 = e ∨ kv ∈ m := by
  intro m
  induction m with
  | nil =>
    intro e kv h
    simp only [bumpEdge, List.mem_singleton] at h
    subst h
    exact Or.inl rfl
  | cons kv0 rest ih =>
    obtain ⟨k0, n⟩ := kv0
    intro e kv h
    by_cases h0 : k0 = e
    · rw [show bumpEdge ((k0, n) :: rest) e = (k0, n + 1) :: rest from by
        simp [bumpEdge, h0]] at h
      rcases List.mem_cons.mp h with h2 | h2
      · subst h2; exact Or.inl h0
      · exact Or.inr (List.mem_cons_of_mem _ h2)
    · rw [show bumpEdge ((k0, n) :: rest) e = (k0, n) :: bumpEdge rest e from by
        simp [bumpEdge, h0]] at h
      rcases List.mem_cons.mp h with h2 | h2
      · subst h2; exact Or.inr (List.mem_cons_self _ _)
      · rcases ih e kv h2 with h3 | h3
        · exact Or.inl h3
        · exact Or.inr (List.mem_cons_of_mem _ h3)

theorem mem_foldl_key (l : List (Point × Point)) :
    ∀ (m : List ((Point × Point) × Nat)) (kv : (Point × Point) × Nat),
      kv ∈ l.foldl bumpEdge m → kv ∈ m ∨ kv.1 ∈ l := by
  induction l with
  | nil => intro m kv h; exact Or.inl h
  | cons e l ih =>
    intro m kv h
    rcases ih (bumpEdge m e) kv h with h2 | h2
    · rcases mem_bump_key m e kv h2 with h3 | h3
      · exact Or.inr (h3 ▸ List.mem_cons_self e l)
      · exact Or.inl h3
    · exact Or.inr (List.mem_cons_of_mem e h2)

/-- The first components of an association list. -/
def keysOf (m : List ((Point × Point) × Nat)) : List (Point × Point) :=
  m.map Prod.fst

theorem keys_bump (m : List ((Point × Point) × Nat)) (e : Point × Point) :
    keysOf (bumpEdge m e) = if e ∈ keysOf m then keysOf m else keysOf m ++ [e] := by
  induction m with
  | nil => simp [bumpEdge, keysOf]
  | cons kv rest ih =>
    obtain ⟨k0, n⟩ := kv
    by_cases h0 : k0 = e
    · subst h0
      simp [bumpEdge, keysOf]
    · have hne : e ≠ k0 := fun h => h0 h.symm
      simp only [bumpEdge, if_neg h0, keysOf, List.map_cons] at ih ⊢
      rw [ih]
      by_cases hm : e ∈ List.map Prod.fst rest
      · simp [List.mem_cons, hm, hne]
      · simp [List.mem_cons, hm, hne]

theorem keys_nodup_bump {m : List ((Point × Point) × Nat)} (e : Point × Point)
    (h : (keysOf m).Nodup) : (keysOf (bumpEdge m e)).Nodup := by
  rw [keys_bump]
  by_cases hm : e ∈ keysOf m
  · simpa [hm] using h
  · simp [hm, List.nodup_append, h]

theorem keys_nodup_foldl (l : List (Point × Point)) :
    ∀ (m : List ((Point × Point) × Nat)), (keysOf m).Nodup →
      (keysOf (l.foldl bumpEdge m)).Nodup := by
  induction l with
  | nil => intro m h; exact h
  | cons e l ih => intro m h; exact ih (bumpEdge m e) (keys_nodup_bump e h)

theorem entry_eq_lookup : ∀ (m : List ((Point × Point) × Nat)),
    (keysOf m).Nodup → ∀ kv ∈ m, kv.2 = lookupE m kv.1 := by
  intro m
  induction m with
  | nil => intro _ kv h; exact absurd h (List.not_mem_nil kv)
  | cons kv0 rest ih =>
    obtain ⟨k0, n⟩ := kv0
    intro hnd kv h
    have hnd2 : (keysOf rest).Nodup := by
      simpa [keysOf] using hnd.of_cons
    rcases List.mem_cons.mp h with h2 | h2
    · subst h2
      simp [lookupE]
    · have hne : k0 ≠ kv.1 := by
        intro he
        have : k0 ∈ keysOf rest := by
          rw [he]
          exact List.mem_map_of_mem Prod.fst h2
        simp only [keysOf, List.map_cons, List.nodup_cons] at hnd
        exact hnd.1 (by simpa [keysOf] using this)
      simp only [lookupE, if_neg hne]
      exact ih hnd2 kv h2

/-- The `all(count == 2 ...)` check holds iff every edge key of the mesh has
multiset multiplicity exactly 2 in the stream of contributed edges. -/
theorem check_watertight_iff (ts : List Triangle) :
    check_watertight ts = true ↔
      ∀ e ∈ edgeMultiset ts, cntK e (edgeMultiset ts) = 2 := by
  unfold check_watertight edge_count
  rw [List.all_eq_true]
  constructor
  · intro h e he
    have hl : lookupE ((edgeMultiset ts).foldl bumpEdge []) e = cntK e (edgeMultiset ts) := by
      rw [lookupE_foldl]
      simp [lookupE]
    have hne : cntK e (edgeMultiset ts) ≠ 0 := cntK_ne_zero_of_mem he
    have hmem := lookupE_mem _ e (by rw [hl]; exact hne)
    have := h _ hmem
    simp only [decide_eq_true_eq] at this
    rw [← hl]
    exact this
  · intro h kv hkv
    simp only [decide_eq_true_eq]
    have hk : kv.1 ∈ edgeMultiset ts := by
      rcases mem_foldl_key _ _ _ hkv with h2 | h2
      · exact absurd h2 (List.not_mem_nil kv)
      · exact h2
    have hv := entry_eq_lookup _ (keys_nodup_foldl _ [] (by simp [keysOf])) kv hkv
    rw [hv, lookupE_foldl]
    simp only [lookupE, Nat.zero_add]
    exact h kv.1 hk

/-! ## Winding reversal -/

/-- Exchange `p1` and `p3` of a facet (reverse its winding order). -/
def revTri (t : Triangle) : Triangle := (t.2.2, t.2.1, t.1)

theorem perm3 (a b c : Point) : ([c, b, a] : List Point).Perm [a, b, c] :=
  ((List.Perm.swap b c [a]).trans
    (List.Perm.cons b (List.Perm.swap a c []))).trans (List.Perm.swap a b [c])

theorem vertsOf_rev_perm (ts : List Triangle) :
    (vertsOf (ts.map revTri)).Perm (vertsOf ts) := by
  induction ts with
  | nil => simp [vertsOf]
  | cons t rest ih =>
    have h1 : vertsOf (revTri t :: rest.map revTri) =
        [t.2.2, t.2.1, t.1] ++ vertsOf (rest.map revTri) := by
      simp [vertsOf, triVerts, revTri]
    have h2 : vertsOf (t :: rest) = [t.1, t.2.1, t.2.2] ++ vertsOf rest := by
      simp [vertsOf, triVerts]
    rw [List.map_cons, h1, h2]
    exact List.Perm.append (perm3 t.1 t.2.1 t.2.2) ih

theorem calc_bounding_box_rev (ts : List Triangle) :
    calc_bounding_box (ts.map revTri) = calc_bounding_box ts := by
  rw [calc_bounding_box_eq, calc_bounding_box_eq]
  have px' := (vertsOf_rev_perm ts).map px
  have py' := (vertsOf_rev_perm ts).map py
  have pz' := (vertsOf_rev_perm ts).map pz
  rw [show xsOf (ts.map revTri) = (vertsOf (ts.map revTri)).map px from rfl,
      show ysOf (ts.map revTri) = (vertsOf (ts.map revTri)).map py from rfl,
      show zsOf (ts.map revTri) = (vertsOf (ts.map revTri)).map pz from rfl]
  rw [minOf_perm px', maxOf_perm px', minOf_perm py', maxOf_perm py',
      minOf_perm pz', maxOf_perm pz']
  rfl

theorem sum_map_neg {α : Type} (f : α → ℚ) :
    ∀ l : List α, (l.map fun t => -f t).sum = -(l.map f).sum
  | [] => by simp
  | x :: l => by
    simp only [List.map_cons, List.sum_cons, sum_map_neg f l]
    ring

theorem signed_volume_rev (p1 p2 p3 : Point) :
    signed_volume_of_triangle p3 p2 p1 = - signed_volume_of_triangle p1 p2 p3 := by
  simp only [signed_volume_of_triangle]
  ring

theorem rawSignedTotal_rev (ts : List Triangle) :
    rawSignedTotal (ts.map revTri) = - rawSignedTotal ts := by
  unfold rawSignedTotal
  rw [calc_bounding_box_rev]
  rw [foldl_add_eq, foldl_add_eq, List.map_map]
  simp only [zero_add]
  rw [show ((fun t => signed_volume_of_triangle
        (translated_tri (calc_bounding_box ts).2 t).1
        (translated_tri (calc_bounding_box ts).2 t).2.1
        (translated_tri (calc_bounding_box ts).2 t).2.2) ∘ revTri) =
      (fun t => - signed_volume_of_triangle
        (translated_tri (calc_bounding_box ts).2 t).1
        (translated_tri (calc_bounding_box ts).2 t).2.1
        (translated_tri (calc_bounding_box ts).2 t).2.2) from ?_]
  · exact sum_map_neg _ ts
  · funext t
    show signed_volume_of_triangle
        (translated_tri (calc_bounding_box ts).2 (revTri t)).1
        (translated_tri (calc_bounding_box ts).2 (revTri t)).2.1
        (translated_tri (calc_bounding_box ts).2 (revTri t)).2.2 = _
    rw [show translated_tri (calc_bounding_box ts).2 (revTri t) =
        revTri (translated_tri (calc_bounding_box ts).2 t) from rfl]
    exact signed_volume_rev _ _ _

/-! ## Spec-side translation by a common offset (for the area claim) -/

/-- Spec-side: translate every vertex of a facet by one common offset. -/
def translateTri (o : Point) (t : Triangle) : Triangle :=
  ((px t.1 + px o, py t.1 + py o, pz t.1 + pz o),
   (px t.2.1 + px o, py t.2.1 + py o, pz t.2.1 + pz o),
   (px t.2.2 + px o, py t.2.2 + py o, pz t.2.2 + pz o))

/-! # Claims -/

/-- C1: for every loaded mesh, `calculate_volume` returns the absolute value
of the sum, over all triangles, of the signed tetrahedron volume
`(1/6)*(-p3x*p2y*p1z + p2x*p3y*p1z + p3x*p1y*p2z - p1x*p3y*p2z - p2x*p1y*p3z
+ p1x*p2y*p3z)` computed on vertices translated by subtracting the
bounding-box minimum corner, divided by 1000 (mm³ → cm³); in particular the
returned volume is always non-negative. -/
theorem c1_volume_abs_signed_sum (ts : List Triangle) :
    0 ≤ calculate_volume ts ∧
    calculate_volume ts =
      |(ts.map (fun t =>
        (1 / 6 : ℚ) *
          (-((px t.2.2 - px (calc_bounding_box ts).2) *
              (py t.2.1 - py (calc_bounding_box ts).2) *
              (pz t.1 - pz (calc_bounding_box ts).2)) +
            (px t.2.1 - px (calc_bounding_box ts).2) *
              (py t.2.2 - py (calc_bounding_box ts).2) *
              (pz t.1 - pz (calc_bounding_box ts).2) +
            (px t.2.2 - px (calc_bounding_box ts).2) *
              (py t.1 - py (calc_bounding_box ts).2) *
              (pz t.2.1 - pz (calc_bounding_box ts).2) -
            (px t.1 - px (calc_bounding_box ts).2) *
              (py t.2.2 - py (calc_bounding_box ts).2) *
              (pz t.2.1 - pz (calc_bounding_box ts).2) -
            (px t.2.1 - px (calc_bounding_box ts).2) *
              (py t.1 - py (calc_bounding_box ts).2) *
              (pz t.2.2 - pz (calc_bounding_box ts).2) +
            (px t.1 - px (calc_bounding_box ts).2) *
              (py t.2.1 - py (calc_bounding_box ts).2) *
              (pz t.2.2 - pz (calc_bounding_box ts).2)))).sum| / 1000 := by
  constructor
  · exact div_nonneg (abs_nonneg _) (by norm_num)
  · unfold calculate_volume rawSignedTotal
    rw [foldl_add_eq, zero_add]
    rfl

/-- C6: reversing the winding order of every triangle (exchanging `p1` and
`p3`) negates each per-triangle signed tetrahedron contribution and the raw
signed sum, so the volume reported by `calculate_volume` is unchanged; the
orientation warning is surfaced exactly when the raw signed sum is negative
(the sign is not silently fixed without warning). -/
theorem c6_winding_reversal (ts : List Triangle) (t : Triangle) :
    signed_volume_of_triangle (revTri t).1 (revTri t).2.1 (revTri t).2.2 =
      - signed_volume_of_triangle t.1 t.2.1 t.2.2 ∧
    rawSignedTotal (ts.map revTri) = - rawSignedTotal ts ∧
    calculate_volume (ts.map revTri) = calculate_volume ts ∧
    (orientation_warned ts = true ↔ rawSignedTotal ts < 0) := by
  refine ⟨signed_volume_rev t.1 t.2.1 t.2.2, rawSignedTotal_rev ts, ?_, ?_⟩
  · unfold calculate_volume
    rw [rawSignedTotal_rev, abs_neg]
  · unfold orientation_warned
    exact decide_eq_true_iff

/-- C7: `calculate_surface_area` returns the sum over all triangles of 0.5
times the Euclidean norm of the cross product of the edge vectors `p2 - p1`
and `p3 - p1`, divided by 100 (mm² → cm²); the result is invariant under
translating every vertex of the mesh by one common offset vector. -/
theorem c7_surface_area (ts : List Triangle) (o : Point) :
    calculate_surface_area ts =
      (ts.map (fun t =>
        (1 / 2 : ℝ) * Real.sqrt
          ((((py t.2.1 : ℝ) - py t.1) * ((pz t.2.2 : ℝ) - pz t.1) -
             ((pz t.2.1 : ℝ) - pz t.1) * ((py t.2.2 : ℝ) - py t.1)) ^ 2 +
           (((pz t.2.1 : ℝ) - pz t.1) * ((px t.2.2 : ℝ) - px t.1) -
             ((px t.2.1 : ℝ) - px t.1) * ((pz t.2.2 : ℝ) - pz t.1)) ^ 2 +
           (((px t.2.1 : ℝ) - px t.1) * ((py t.2.2 : ℝ) - py t.1) -
             ((py t.2.1 : ℝ) - py t.1) * ((px t.2.2 : ℝ) - px t.1)) ^ 2))).sum / 100 ∧
    calculate_surface_area (ts.map (translateTri o)) = calculate_surface_area ts := by
  constructor
  · unfold calculate_surface_area
    rw [foldl_add_eq, zero_add]
    congr 2
    apply List.map_congr_left
    intro t _
    simp only [tri_area_term]
    norm_num
    congr 1
    ring
  · unfold calculate_surface_area
    rw [foldl_add_eq, foldl_add_eq, List.map_map]
    have : tri_area_term ∘ translateTri o = tri_area_term := by
      funext t
      simp only [Function.comp_apply, tri_area_term, translateTri, px, py, pz]
      norm_num
    rw [this]

/-- C9: bounding-box accumulation computes, per axis, the minimum and maximum
coordinate over all 3 vertices of all triangles and outputs dimensions
`(max - min)/10` per axis (mm → cm), with the minimum corner recorded as the
translation origin; for an empty triangle set all dimensions and the origin
are zero and no error is raised. -/
theorem c9_bounding_box (ts : List Triangle) :
    calc_bounding_box ([] : List Triangle) = (⟨0, 0, 0⟩, (0, 0, 0)) ∧
    calc_bounding_box ts =
      (⟨(maxOf (xsOf ts) - minOf (xsOf ts)) / 10,
        (maxOf (ysOf ts) - minOf (ysOf ts)) / 10,
        (maxOf (zsOf ts) - minOf (zsOf ts)) / 10⟩,
       (minOf (xsOf ts), minOf (ysOf ts), minOf (zsOf ts))) ∧
    (∀ v ∈ vertsOf ts,
      minOf (xsOf ts) ≤ px v ∧ px v ≤ maxOf (xsOf ts) ∧
      minOf (ysOf ts) ≤ py v ∧ py v ≤ maxOf (ysOf ts) ∧
      minOf (zsOf ts) ≤ pz v ∧ pz v ≤ maxOf (zsOf ts)) ∧
    (ts = [] ∨
      (minOf (xsOf ts) ∈ xsOf ts ∧ maxOf (xsOf ts) ∈ xsOf ts ∧
       minOf (ysOf ts) ∈ ysOf ts ∧ maxOf (ysOf ts) ∈ ysOf ts ∧
       minOf (zsOf ts) ∈ zsOf ts ∧ maxOf (zsOf ts) ∈ zsOf ts)) := by
  refine ⟨rfl, calc_bounding_box_eq ts, ?_, ?_⟩
  · intro v hv
    exact ⟨minOf_le (List.mem_map_of_mem px hv), maxOf_le (List.mem_map_of_mem px hv),
      minOf_le (List.mem_map_of_mem py hv), maxOf_le (List.mem_map_of_mem py hv),
      minOf_le (List.mem_map_of_mem pz hv), maxOf_le (List.mem_map_of_mem pz hv)⟩
  · cases ts with
    | nil => exact Or.inl rfl
    | cons t rest =>
      have hx : xsOf (t :: rest) ≠ [] := by simp [xsOf, vertsOf_cons]
      have hy : ysOf (t :: rest) ≠ [] := by simp [ysOf, vertsOf_cons]
      have hz : zsOf (t :: rest) ≠ [] := by simp [zsOf, vertsOf_cons]
      exact Or.inr ⟨minOf_mem hx, maxOf_mem hx, minOf_mem hy, maxOf_mem hy,
        minOf_mem hz, maxOf_mem hz⟩

/-- A mesh exercising degenerate facets: the two facets repeat a vertex, so a
single facet contributes the same undirected edge key twice. -/
def c2Mesh : List Triangle :=
  [((0, 0, 0), (1, 0, 0), (0, 0, 0)), ((0, 0, 0), (0, 0, 0), (0, 1, 0))]

/-- C2 counterexample: on `c2Mesh` the check returns true although the edge
joining `(0,0,0)` and `(1,0,0)` occurs in only one triangle of the mesh (that
triangle contributes it twice); so "true iff every undirected edge occurs in
exactly 2 triangles" fails as stated. -/
theorem c2_watertight_counterexample :
    check_watertight c2Mesh = true ∧
    ¬ (∀ e ∈ edgeMultiset c2Mesh, trisContaining e c2Mesh = 2) := by
  constructor
  · with_unfolding_all decide
  · with_unfolding_all decide

/-- C2 (amended): the watertightness check returns true iff every undirected
edge key occurs exactly twice in the multiset of edges contributed by all
triangles (each triangle contributing its three, not necessarily distinct,
edges); for a mesh with zero triangles it returns true vacuously. -/
theorem c2_watertight_iff_edge_counts (ts : List Triangle) :
    (check_watertight ts = true ↔
      ∀ e ∈ edgeMultiset ts, cntK e (edgeMultiset ts) = 2) ∧
    check_watertight ([] : List Triangle) = true :=
  ⟨check_watertight_iff ts, rfl⟩

/-- A binary file (header of 80 NUL bytes, so not `solid`) of exactly 84
bytes whose 4 count bytes are `00 00 00 80`: unsigned little-endian value
`2^31 = 2147483648`. -/
def c3File : List Byte := List.replicate 80 0 ++ [0, 0, 0, 128]

/-- C3: divergence witness.  The file is detected as binary and its
count field reads `2147483648` as an unsigned 32-bit little-endian integer,
but `loadSTL` decodes it with native *signed* `"@i"`, obtains `-2147483648`,
iterates zero times, and returns normally with 0 triangles instead of
producing exactly 2147483648 triangles (or failing on the truncation). -/
theorem c3_count_decode_divergence :
    is_binary c3File = true ∧
    u32le (slice c3File 80 4) = 2147483648 ∧
    loadSTL_binary c3File = .ok (-2147483648, ([] : List Triangle)) ∧
    (([] : List Triangle)).length ≠ u32le (slice c3File 80 4) := by
  refine ⟨?_, ?_, ?_, ?_⟩
  · with_unfolding_all decide
  · with_unfolding_all decide
  · with_unfolding_all rfl
  · with_unfolding_all decide

/-- An ASCII STL file whose first facet is missing one vertex line (6 lines
instead of 7) and is immediately followed by a well-formed facet. -/
def c4Lines : List Line :=
  ["solid part".data,
   "facet normal 0 0 0".data,
   "outer loop".data,
   "vertex 0 0 0".data,
   "vertex 1 0 0".data,
   "endloop".data,
   "endfacet".data,
   "facet normal 0 0 0".data,
   "outer loop".data,
   "vertex 0 0 0".data,
   "vertex 1 0 0".data,
   "vertex 0 1 0".data,
   "endloop".data,
   "endfacet".data,
   "endsolid part".data]

/-- C4 counterexample: `c4Lines` holds 2 facets, one of them missing a vertex
line; the loader returns 0 triangles, not `expected - 1 = 1` — the fixed
7-line skip from the malformed facet line swallows the following facet. -/
theorem c4_missing_vertex_counterexample :
    (c4Lines.filter isFacetLine).length = 2 ∧
    (loadSTL_text c4Lines).length = 0 ∧
    (loadSTL_text c4Lines).length ≠ (c4Lines.filter isFacetLine).length - 1 := by
  refine ⟨?_, ?_, ?_⟩
  · with_unfolding_all decide
  · with_unfolding_all decide
  · with_unfolding_all decide

/-- C4 (amended): a facet whose vertex lines yield fewer than 3 numeric
tokens, or whose vertex-line indices fall outside the line range, is skipped
without raising and scanning resumes 7 lines after the `facet` line (not at
the next line); hence `triangle_count = expected - 1` only when no other
facet line lies within the skipped window, and a following facet whose
`facet` line falls inside it is lost as well. -/
theorem c4_malformed_facet_skip (lines : List Line) (fuel i : Nat)
    (h : i < lines.length) (hf : isFacetLine (lines.get ⟨i, h⟩) = true)
    (hm : read_ascii_triangle lines i = none) :
    scanSTL lines (fuel + 1) i = scanSTL lines fuel (i + 7) := by
  have hf2 : isFacetLine lines[i] = true := hf
  simp [scanSTL, h, hf2, hm]

/-- C4 witness: the skip theorem applied to the malformed facet of `c4Lines`
at line 1. -/
theorem c4_malformed_facet_skip_witness :
    scanSTL c4Lines 15 1 = scanSTL c4Lines 14 8 :=
  c4_malformed_facet_skip c4Lines 14 1 (by with_unfolding_all decide)
    (by with_unfolding_all decide) (by with_unfolding_all decide)

/-- C5: format detection classifies a file as binary iff either its first 80
bytes do not begin (after trimming leading whitespace) with `solid`, or they
do and the file size equals `80 + 4 + 50*n` with `n` the unsigned 32-bit
little-endian integer read from the 4 bytes after the header.  In
particular a file beginning with `solid` that is too short to supply those 4
bytes makes the size equation unsatisfiable and is classified as text. -/
theorem c5_format_detection (f : List Byte) :
    is_binary f = true ↔
      (startsWithSolid (f.take 80) = false ∨
        f.length = 80 + 4 + u32le (slice f 80 4) * 50) := by
  unfold is_binary
  by_cases hs : startsWithSolid (f.take 80) = true
  · rw [if_neg (by simp [hs])]
    by_cases hl : (slice f 80 4).length < 4
    · rw [if_pos hl]
      have hlen : f.length < 84 := by
        simp only [slice, List.length_take, List.length_drop] at hl
        omega
      constructor
      · intro h
        exact absurd h (by simp)
      · rintro (h | h)
        · rw [hs] at h
          exact absurd h (by simp)
        · exfalso
          omega
    · rw [if_neg hl]
      simp only [decide_eq_true_eq]
      constructor
      · intro h
        exact Or.inr h
      · rintro (h | h)
        · rw [hs] at h
          exact absurd h (by simp)
        · exact h
  · rw [if_pos (by simp [hs])]
    have hs2 : startsWithSolid (f.take 80) = false := Bool.eq_false_iff.mpr hs
    simp [hs2]

/-- A binary file of 84 bytes whose count bytes are `01 00 00 80`: unsigned
little-endian value `2147483649`, requiring about 107 GB of triangle data
that the file does not contain. -/
def c8File : List Byte := List.replicate 80 0 ++ [1, 0, 0, 128]

/-- C8: divergence witness.  The declared (unsigned little-endian) triangle
count of `c8File` requires more bytes than the file contains, yet the load
returns normally with an empty triangle list instead of failing with a
decode error: the native signed `"@i"` decode turns the count negative and
the reading loop runs zero times. -/
theorem c8_truncated_not_error_divergence :
    is_binary c8File = true ∧
    c8File.length < 80 + 4 + 50 * u32le (slice c8File 80 4) ∧
    loadSTL_binary c8File = .ok (-2147483647, ([] : List Triangle)) := by
  refine ⟨?_, ?_, ?_⟩
  · with_unfolding_all decide
  · with_unfolding_all decide
  · with_unfolding_all rfl

theorem readTriangles_succ (f : List Byte) (pos n : Nat) :
    readTriangles f pos (n + 1) =
      if pos + 50 ≤ f.length then
        match readTriangles f (pos + 50) n with
        | .ok ts => .ok (read_triangle_binary f pos :: ts)
        | .error e => .error e
      else .error "unpack requires a buffer" := rfl

/-- For a *positive* decoded count that overruns the file, the reading loop
does fail with a decode error (complement to the C8 divergence: the
truncation handling itself is sound, the count decode is what breaks). -/
theorem readTriangles_overrun_error (f : List Byte) :
    ∀ n pos, 1 ≤ n → f.length < pos + 50 * n →
      ∃ e, readTriangles f pos n = .error e := by
  intro n
  induction n with
  | zero => intro pos h1 _; exact absurd h1 (by omega)
  | succ n ih =>
    intro pos _ h2
    by_cases hp : pos + 50 ≤ f.length
    · cases n with
      | zero => exact absurd hp (by omega)
      | succ m =>
        obtain ⟨e, he⟩ := ih (pos + 50) (by omega) (by omega)
        exact ⟨e, by rw [readTriangles_succ, if_pos hp, he]⟩
    · exact ⟨"unpack requires a buffer", by rw [readTriangles_succ, if_neg hp]⟩

/-- At the `loadSTL` level: when the decoded count is positive and its
records would overrun the file, the load aborts with a decode error. -/
theorem loadSTL_binary_overrun_error (f : List Byte)
    (h1 : 1 ≤ (readCountNative f).toNat)
    (h2 : f.length < 84 + 50 * (readCountNative f).toNat) :
    ∃ e, loadSTL_binary f = .error e := by
  by_cases hl : 84 ≤ f.length
  · obtain ⟨e, he⟩ := readTriangles_overrun_error f (readCountNative f).toNat 84 h1 h2
    exact ⟨e, by simp [loadSTL_binary, hl, he]⟩
  · exact ⟨"unpack requires a buffer", by simp [loadSTL_binary, hl]⟩

/-- A binary file of 84 bytes whose count bytes are `02 00 00 80`: decoded by
`"@i"` as `-2147483646`. -/
def c10File : List Byte := List.replicate 80 0 ++ [2, 0, 0, 128]

/-- C10: divergence witness.  The binary load returns normally on `c10File`
with `triangle_count = -2147483646` while the stored triangle list is empty,
so the invariant `triangle_count = len(triangles)` fails on a file on which
the load returns normally. -/
theorem c10_count_length_mismatch :
    loadSTL_binary c10File = .ok (-2147483646, ([] : List Triangle)) ∧
    ¬ ((-2147483646 : Int) = (([] : List Triangle).length : Int)) := by
  constructor
  · with_unfolding_all rfl
  · with_unfolding_all decide

end STL
